import Mathlib

/-!
Shallow embedding of the BrainVault vector knowledge store
(src/utils/database.py and src/utils/summarizer.py).

Numpy float32 vectors are modelled as lists of rationals; the external
libraries that generate_embeddings composes (hashlib.md5 and numpy's seeded
randn) are modelled as an explicit parameter structure, with numpy's
documented contract that randn(n) returns n numbers.  The faiss
IndexFlatL2 index is modelled as the list of stored vectors in insertion
order; its exhaustive knn search is modelled as a stable sort of all
(position, squared-L2-distance) pairs by ascending distance, truncated to
k entries.  Persistence is modelled as an explicit disk state holding the
optional contents of the two snapshot files.
-/

namespace BrainVault

/-- An embedding vector (numpy float array, over exact rationals). -/
abbrev Vec := List ℚ

/-- The external libraries used by generate_embeddings in
src/utils/summarizer.py: hashlib.md5 hex digest read as a number, and
numpy's randn drawn after np.random.seed.  randn_length is numpy's
contract that randn(n) has n entries. -/
structure EmbedLib where
  md5hex : String → Nat
  randn : Nat → Nat → List ℚ
  randn_length : ∀ s n, (randn s n).length = n

/-- generate_embeddings (src/utils/summarizer.py, lines 96-113):
seed numpy with (md5(text) as int) mod 10^8 and draw randn(64). -/
def generate_embeddings (lib : EmbedLib) (text : String) : Vec :=
  lib.randn (lib.md5hex text % 10 ^ 8) 64

/-- One metadata record as built by VectorDB.add
(src/utils/database.py, lines 69-75). -/
structure Record where
  id : Nat
  topic : String
  content : String
  source : String
  date : String
  deriving DecidableEq, Repr

/-- Rebuilding a record with a fresh positional id
(item.copy() followed by overwriting item["id"], database.py line 172-173). -/
def withId (r : Record) (i : Nat) : Record :=
  ⟨i, r.topic, r.content, r.source, r.date⟩

/-- The in-memory state of a VectorDB: the faiss IndexFlatL2 index
(its stored vectors in insertion order) and the metadata list. -/
structure DB where
  index : List Vec
  metadata : List Record
  deriving DecidableEq, Repr

/-- The persisted state of one profile: the optional contents of
faiss_index.bin and metadata.json. -/
structure Disk where
  indexFile : Option (List Vec)
  metaFile : Option (List Record)
  deriving DecidableEq, Repr

/-- VectorDB.__init__ (database.py, lines 27-34): if both the index file
and the metadata file exist, read both (no consistency check); otherwise
start with a fresh empty index and empty metadata. -/
def initDB : Disk → DB
  | ⟨some i, some m⟩ => ⟨i, m⟩
  | ⟨some _, none⟩ => ⟨[], []⟩
  | ⟨none, _⟩ => ⟨[], []⟩

/-- create_or_load_vector_db (database.py, lines 185-195) just constructs
a VectorDB for the profile. -/
def create_or_load_vector_db (d : Disk) : DB :=
  initDB d

/-- VectorDB.save (database.py, lines 36-40): write both snapshot files. -/
def saveDisk (db : DB) : Disk :=
  ⟨some db.index, some db.metadata⟩

/-- Squared L2 distance, the metric faiss IndexFlatL2 computes and returns. -/
def dist2 (u v : Vec) : ℚ :=
  (List.zipWith (fun a b => (a - b) ^ 2) u v).sum

/-- Comparison of (position, distance) pairs by distance, the order in
which faiss returns knn results. -/
def distLE (a b : Nat × ℚ) : Prop :=
  a.2 ≤ b.2

instance : DecidableRel distLE :=
  fun a b => inferInstanceAs (Decidable (a.2 ≤ b.2))

instance : IsTotal (Nat × ℚ) distLE :=
  ⟨fun a b => le_total a.2 b.2⟩

instance : IsTrans (Nat × ℚ) distLE :=
  ⟨fun _ _ _ h h2 => le_trans h h2⟩

/-- faiss IndexFlatL2.search restricted to one query, as used in
VectorDB.search (database.py, line 104): exhaustively score every stored
vector, order by ascending distance and keep the first k
(position, distance) pairs. -/
def knn (index : List Vec) (q : Vec) (k : Nat) : List (Nat × ℚ) :=
  (List.insertionSort distLE
    (index.enum.map (fun p => (p.1, dist2 q p.2)))).take k

/-- VectorDB.add (database.py, lines 42-80): embed the content unless
embeddings were passed in, append the vector to the index, and append a
metadata record whose id is the previous metadata length.  Returns the
new state and the id. -/
def add (lib : EmbedLib) (db : DB) (topic content source date : String)
    (embeddings : Option Vec) : DB × Nat :=
  let emb := match embeddings with
    | none => generate_embeddings lib content
    | some e => e
  let idx := db.metadata.length
  (⟨db.index ++ [emb], db.metadata ++ [⟨idx, topic, content, source, date⟩]⟩, idx)

/-- Default record used to express python's self.metadata[idx] lookup
(guarded by idx < len(self.metadata) in database.py line 109). -/
def defaultRecord : Record :=
  ⟨0, "", "", "", ""⟩

/-- One search result: a copy of the matched record together with the
"score" field attached to the copy (database.py, lines 116-117). -/
structure SearchResult where
  record : Record
  score : ℚ
  deriving DecidableEq, Repr

/-- max(distances[0]) if len(distances[0]) > 0 else 1
(database.py, line 112). -/
def maxDist : List ℚ → ℚ
  | [] => 1
  | d :: ds => ds.foldl max d

/-- VectorDB.search (database.py, lines 82-120): return [] on an empty
store; otherwise embed the query, clamp k to the metadata count, run knn,
and for every returned position that is a valid metadata index emit a
copy of the record scored by 1 - distance / max-distance-of-this-result-set
(score 0 for every entry when that max is not positive). -/
def search (lib : EmbedLib) (db : DB) (query : String) (top_k : Nat) :
    List SearchResult :=
  if db.metadata.length = 0 then []
  else
    let query_vector := generate_embeddings lib query
    let k := min top_k db.metadata.length
    let nn := knn db.index query_vector k
    let max_distance := maxDist (nn.map (fun p => p.2))
    nn.filterMap (fun p =>
      if p.1 < db.metadata.length then
        some ⟨db.metadata.getD p.1 defaultRecord,
              if 0 < max_distance then 1 - p.2 / max_distance else 0⟩
      else none)

/-- The (position, distance) list VectorDB.search obtains from the index
for a given query (the local variables distances, indices at line 104). -/
def searchNN (lib : EmbedLib) (db : DB) (query : String) (top_k : Nat) :
    List (Nat × ℚ) :=
  knn db.index (generate_embeddings lib query) (min top_k db.metadata.length)

/-- The normalizer max_distance VectorDB.search uses for a given query
(database.py, line 112). -/
def searchMaxDist (lib : EmbedLib) (db : DB) (query : String) (top_k : Nat) : ℚ :=
  maxDist ((searchNN lib db query top_k).map (fun p => p.2))

/-- VectorDB.get_all_topics (database.py, lines 122-129):
list(set(item["topic"] for item in self.metadata)). -/
def get_all_topics (db : DB) : List String :=
  (db.metadata.map (fun item => item.topic)).dedup

/-- VectorDB.get_by_topic (database.py, lines 131-141). -/
def get_by_topic (db : DB) (topic : String) : List Record :=
  db.metadata.filter (fun item => item.topic = topic)

/-- One iteration of the rebuild loop in VectorDB.delete_by_topic
(database.py, lines 167-174): re-embed the surviving item's content,
append the vector to the new index and append a copy of the item with
its id overwritten by the loop counter. -/
def rebuildStep (lib : EmbedLib) (acc : List Vec × List Record)
    (p : Nat × Record) : List Vec × List Record :=
  (acc.1 ++ [generate_embeddings lib p.2.content], acc.2 ++ [withId p.2 p.1])

/-- VectorDB.delete_by_topic (database.py, lines 143-183): keep the items
whose topic differs from the argument; if nothing was removed return
(state unchanged, false); otherwise rebuild the index and metadata from
the survivors, enumerated from 0, and return true. -/
def delete_by_topic (lib : EmbedLib) (db : DB) (topic : String) : DB × Bool :=
  let keep_items := db.metadata.filter (fun item => item.topic ≠ topic)
  if keep_items.length = db.metadata.length then (db, false)
  else
    let built := keep_items.enum.foldl (rebuildStep lib) ([], [])
    (⟨built.1, built.2⟩, true)

/-- VectorDB.search as a method on the in-memory state: the method body
assigns to no field of self, so its state transition is the identity. -/
def searchM (lib : EmbedLib) (db : DB) (query : String) (top_k : Nat) :
    DB × List SearchResult :=
  (db, search lib db query top_k)

/-- VectorDB.get_by_topic as a method on the in-memory state
(no field of self is assigned). -/
def get_by_topicM (db : DB) (topic : String) : DB × List Record :=
  (db, get_by_topic db topic)

/-- VectorDB.get_all_topics as a method on the in-memory state
(no field of self is assigned). -/
def get_all_topicsM (db : DB) : DB × List String :=
  (db, get_all_topics db)

/-- The operations a session can perform against one profile's store,
after which VectorDB.add and a successful VectorDB.delete_by_topic call
self.save(); reload models constructing a fresh VectorDB over the same
profile directory. -/
inductive Op where
  | addOp (topic content source date : String) (embeddings : Option Vec)
  | deleteOp (topic : String)
  | reloadOp

/-- The full state of one profile: the live VectorDB and the profile's
on-disk snapshot files. -/
structure Sys where
  db : DB
  disk : Disk

/-- One lifecycle step: add saves after mutating; delete_by_topic saves
only when it returns true (database.py, lines 78 and 181); reload reads
the disk through VectorDB.__init__. -/
def stepOp (lib : EmbedLib) (s : Sys) : Op → Sys
  | .addOp t c src dt e => ⟨(add lib s.db t c src dt e).1, saveDisk (add lib s.db t c src dt e).1⟩
  | .deleteOp t =>
      if (delete_by_topic lib s.db t).2
      then ⟨(delete_by_topic lib s.db t).1, saveDisk (delete_by_topic lib s.db t).1⟩
      else ⟨(delete_by_topic lib s.db t).1, s.disk⟩
  | .reloadOp => ⟨initDB s.disk, s.disk⟩

/-- A fresh profile: no snapshot files on disk, VectorDB.__init__ then
creates the empty store. -/
def sys0 : Sys :=
  ⟨initDB ⟨none, none⟩, ⟨none, none⟩⟩

/-- Running a session: fold the lifecycle steps from a fresh profile. -/
def run (lib : EmbedLib) (ops : List Op) : Sys :=
  ops.foldl (stepOp lib) sys0

/-- The spec's consistency contract over the in-memory state:
len(metadata) == index.count() and record[i].id == i for every i. -/
def Inv (db : DB) : Prop :=
  db.metadata.length = db.index.length ∧
  ∀ i (h : i < db.metadata.length), (db.metadata.get ⟨i, h⟩).id = i

instance (db : DB) : Decidable (Inv db) := by
  unfold Inv; infer_instance

/-- A concrete, fully computable EmbedLib used to evaluate the theorems
on explicit inputs: the hash of a string is its length, and the seeded
generator returns the seed repeated. -/
def hashLib : EmbedLib where
  md5hex := fun s => s.length
  randn := fun seed n => List.replicate n (seed : ℚ)
  randn_length := fun _ n => List.length_replicate n _

/-- A concrete query text of length 2, so hashLib embeds it as 64 copies of 2. -/
def queryBB : String := "bb"

/-- A concrete content text of length 1, so hashLib embeds it as 64 copies of 1. -/
def contentA : String := "a"

/-- The vector hashLib produces for contentA. -/
def vOne : Vec := List.replicate 64 1

/-- A store holding one record, used to evaluate the search theorems. -/
def db1 : DB := ⟨[vOne], [⟨0, "T", "a", "m", "2024-01-01 00:00:00"⟩]⟩

/-- Topic name used in the delete scenario. -/
def topicA : String := "A"

/-- The three records of the spec's delete scenario, topics A, A, B. -/
def recA1 : Record := ⟨0, "A", "cats", "m", "2024-01-01 00:00:00"⟩

/-- Second record of the delete scenario. -/
def recA2 : Record := ⟨1, "A", "dogs", "m", "2024-01-01 00:00:01"⟩

/-- Third record of the delete scenario, the only one with topic B. -/
def recB : Record := ⟨2, "B", "fish", "m", "2024-01-01 00:00:02"⟩

/-- The store of the spec's delete scenario: records with topics A, A, B. -/
def dbAAB : DB :=
  ⟨[generate_embeddings hashLib recA1.content, generate_embeddings hashLib recA2.content,
    generate_embeddings hashLib recB.content], [recA1, recA2, recB]⟩

/-- A persisted state whose two snapshot files disagree: the index file
holds one vector while the metadata file holds no record. -/
def diskBad : Disk := ⟨some [vOne], some []⟩

/-- The start value of a foldl over max is below the result, and so is
every element folded over. -/
theorem le_foldl_max (l : List ℚ) (a : ℚ) :
    a ≤ l.foldl max a ∧ ∀ x ∈ l, x ≤ l.foldl max a := by
  induction l generalizing a with
  | nil => simp
  | cons d ds ih =>
    refine ⟨le_trans (le_max_left a d) (ih (max a d)).1, ?_⟩
    intro x hx
    rcases List.mem_cons.mp hx with h | h
    · subst h
      exact le_trans (le_max_right a x) (ih (max a x)).1
    · exact (ih (max a d)).2 x h

/-- Every distance in the result set is bounded by python's
max(distances[0]). -/
theorem le_maxDist {d : ℚ} {ds : List ℚ} (h : d ∈ ds) : d ≤ maxDist ds := by
  cases ds with
  | nil => cases h
  | cons a t =>
    rcases List.mem_cons.mp h with h | h
    · subst h
      exact (le_foldl_max t d).1
    · exact (le_foldl_max t a).2 d h

/-- A foldl over max returns either its start value or an element. -/
theorem foldl_max_mem (l : List ℚ) (a : ℚ) :
    l.foldl max a = a ∨ l.foldl max a ∈ l := by
  induction l generalizing a with
  | nil => simp
  | cons d ds ih =>
    rw [List.foldl_cons]
    rcases ih (max a d) with h | h
    · rcases max_choice a d with he | he
      · left
        rw [h, he]
      · right
        rw [h, he]
        exact List.mem_cons_self d ds
    · right
      exact List.mem_cons_of_mem d h

/-- On a nonempty result set, python's max(distances[0]) is one of the
distances. -/
theorem maxDist_mem {ds : List ℚ} (h : ds ≠ []) : maxDist ds ∈ ds := by
  cases ds with
  | nil => exact absurd rfl h
  | cons a t =>
    rcases foldl_max_mem t a with h1 | h1
    · rw [maxDist, h1]
      exact List.mem_cons_self a t
    · rw [maxDist]
      exact List.mem_cons_of_mem a h1

/-- Squared L2 distances are nonnegative. -/
theorem dist2_nonneg (u v : Vec) : 0 ≤ dist2 u v := by
  induction u generalizing v with
  | nil => simp [dist2]
  | cons a u ih =>
    cases v with
    | nil => simp [dist2]
    | cons b v =>
      have h := ih v
      rw [dist2] at h ⊢
      rw [List.zipWith_cons_cons, List.sum_cons]
      exact add_nonneg (sq_nonneg (a - b)) h

/-- Unrolling the rebuild loop of delete_by_topic: folding rebuildStep
appends, to each accumulator, the embedded contents and the renumbered
copies of the items, in order. -/
theorem rebuild_foldl (lib : EmbedLib) (l : List (Nat × Record))
    (acc : List Vec × List Record) :
    l.foldl (rebuildStep lib) acc =
      (acc.1 ++ l.map (fun p => generate_embeddings lib p.2.content),
       acc.2 ++ l.map (fun p => withId p.2 p.1)) := by
  induction l generalizing acc with
  | nil => simp
  | cons p t ih =>
    rw [List.foldl_cons, ih]
    simp [rebuildStep]

/-- A filterMap whose function is total on the list is a map. -/
theorem filterMap_eq_map_of_forall {α β : Type} (l : List α) (f : α → Option β)
    (g : α → β) (h : ∀ a ∈ l, f a = some (g a)) : l.filterMap f = l.map g := by
  induction l with
  | nil => rfl
  | cons a t ih =>
    rw [List.filterMap_cons, h a (List.mem_cons_self a t), List.map_cons,
      ih (fun b hb => h b (List.mem_cons_of_mem a hb))]

/-- Every pair knn returns is a valid position of the index paired with
the squared L2 distance of the stored vector at that position to the
query vector. -/
theorem mem_knn {index : List Vec} {q : Vec} {k : Nat} {p : Nat × ℚ}
    (hp : p ∈ knn index q k) :
    ∃ h : p.1 < index.length, p.2 = dist2 q (index.get ⟨p.1, h⟩) := by
  have h1 : p ∈ List.insertionSort distLE
      (index.enum.map fun pr => (pr.1, dist2 q pr.2)) :=
    List.mem_of_mem_take hp
  have h2 : p ∈ index.enum.map fun pr => (pr.1, dist2 q pr.2) :=
    (List.mem_insertionSort distLE).mp h1
  obtain ⟨pr, hpr, hpe⟩ := List.mem_map.mp h2
  subst hpe
  have h3 : index[pr.1]? = some pr.2 := List.mem_enum_iff_getElem?.mp hpr
  obtain ⟨hlt, hget⟩ := List.getElem?_eq_some.mp h3
  exact ⟨hlt, by rw [List.get_eq_getElem, hget]⟩

/-- knn returns min k (stored count) pairs: up to k, fewer when fewer
vectors are stored. -/
theorem knn_length (index : List Vec) (q : Vec) (k : Nat) :
    (knn index q k).length = min k index.length := by
  rw [knn, List.length_take, List.length_insertionSort, List.length_map,
    List.enum_length]

/-- knn returns its pairs ordered by ascending distance. -/
theorem knn_sorted (index : List Vec) (q : Vec) (k : Nat) :
    (knn index q k).Pairwise distLE := by
  have hs : List.Sorted distLE (List.insertionSort distLE
      (index.enum.map fun p => (p.1, dist2 q p.2))) :=
    List.sorted_insertionSort distLE _
  exact List.Pairwise.sublist (List.take_sublist k _) hs

/-- The rebuild loop embeds the surviving contents in their original
order: enumerating and projecting the item is the same as mapping over
the survivors directly. -/
theorem enum_map_embed (lib : EmbedLib) (l : List Record) :
    l.enum.map (fun p => generate_embeddings lib p.2.content) =
      l.map (fun r => generate_embeddings lib r.content) := by
  have h : (fun p : Nat × Record => generate_embeddings lib p.2.content)
      = (fun r : Record => generate_embeddings lib r.content) ∘ Prod.snd := rfl
  rw [h, ← List.map_map, List.enum_map_snd]

/-- Under the consistency invariant, the guard idx < len(self.metadata)
in VectorDB.search never rejects a knn result, so the result list is
exactly the knn list mapped through record lookup and scoring. -/
theorem search_eq_map (lib : EmbedLib) (db : DB) (q : String) (top_k : Nat)
    (hInv : Inv db) :
    search lib db q top_k = (searchNN lib db q top_k).map (fun p =>
      (⟨db.metadata.getD p.1 defaultRecord,
        if 0 < searchMaxDist lib db q top_k
        then 1 - p.2 / searchMaxDist lib db q top_k else 0⟩ : SearchResult)) := by
  have h1 := hInv.1
  by_cases h0 : db.metadata.length = 0
  · have hidx : db.index = [] := by
      rw [← List.length_eq_zero]
      omega
    simp [search, h0, searchNN, knn, hidx]
  · simp only [search, if_neg h0, searchNN, searchMaxDist]
    apply filterMap_eq_map_of_forall
    intro p hp
    obtain ⟨hlt, -⟩ := mem_knn hp
    have hm : p.1 < db.metadata.length := by omega
    rw [if_pos hm]

/-- Every score VectorDB.search attaches lies between 0 and 1. -/
theorem search_score_bounds (lib : EmbedLib) (db : DB) (q : String) (top_k : Nat)
    (hInv : Inv db) :
    ∀ r ∈ search lib db q top_k, 0 ≤ r.score ∧ r.score ≤ 1 := by
  intro r hr
  rw [search_eq_map lib db q top_k hInv] at hr
  obtain ⟨p, hp, hpe⟩ := List.mem_map.mp hr
  subst hpe
  dsimp only
  by_cases hmd : 0 < searchMaxDist lib db q top_k
  · rw [if_pos hmd]
    obtain ⟨hlt, hpd⟩ := mem_knn hp
    have hd0 : 0 ≤ p.2 := by
      rw [hpd]
      exact dist2_nonneg _ _
    have hdm : p.2 ≤ searchMaxDist lib db q top_k := by
      rw [searchMaxDist]
      exact le_maxDist (List.mem_map_of_mem (fun p => p.2) hp)
    have hu : p.2 / searchMaxDist lib db q top_k ≤ 1 := (div_le_one hmd).mpr hdm
    have hl : 0 ≤ p.2 / searchMaxDist lib db q top_k := div_nonneg hd0 (le_of_lt hmd)
    constructor
    · linarith
    · linarith
  · rw [if_neg hmd]
    norm_num

/-- The scores VectorDB.search returns are non-increasing along the
result list. -/
theorem search_scores_sorted (lib : EmbedLib) (db : DB) (q : String) (top_k : Nat)
    (hInv : Inv db) :
    (search lib db q top_k).Pairwise (fun r s => s.score ≤ r.score) := by
  rw [search_eq_map lib db q top_k hInv, List.pairwise_map]
  have hs : (searchNN lib db q top_k).Pairwise distLE := knn_sorted _ _ _
  refine hs.imp ?_
  intro a b hab
  dsimp only
  by_cases hmd : 0 < searchMaxDist lib db q top_k
  · rw [if_pos hmd, if_pos hmd]
    have hdiv : a.2 / searchMaxDist lib db q top_k ≤
        b.2 / searchMaxDist lib db q top_k :=
      (div_le_div_iff_of_pos_right hmd).mpr hab
    linarith
  · rw [if_neg hmd, if_neg hmd]

/-- The empty store satisfies the consistency invariant. -/
theorem inv_empty : Inv ⟨[], []⟩ := by
  constructor
  · rfl
  · intro i h
    simp at h

/-- VectorDB.add preserves the consistency invariant: both sides grow by
one and the new record's id is its position. -/
theorem inv_add (lib : EmbedLib) (db : DB) (t c src dt : String) (e : Option Vec)
    (h : Inv db) : Inv (add lib db t c src dt e).1 := by
  obtain ⟨hlen, hid⟩ := h
  constructor
  · simp [add, hlen]
  · intro i hi
    have hi2 : i < db.metadata.length + 1 := by
      simpa [add] using hi
    rw [List.get_eq_getElem]
    rcases Nat.lt_or_ge i db.metadata.length with hlt | hge
    · have : (add lib db t c src dt e).1.metadata[i] = db.metadata[i] := by
        simp [add]
        rw [List.getElem_append_left hlt]
      rw [this]
      have := hid i hlt
      rw [List.get_eq_getElem] at this
      exact this
    · have heq : i = db.metadata.length := by omega
      subst heq
      simp [add]

/-- Rewriting delete_by_topic on the removing branch: the new index is
the surviving contents re-embedded in order, and the new metadata is the
surviving records renumbered from 0. -/
theorem delete_true_eq (lib : EmbedLib) (db : DB) (t : String)
    (h : (db.metadata.filter (fun item => item.topic ≠ t)).length ≠ db.metadata.length) :
    delete_by_topic lib db t =
      (⟨(db.metadata.filter (fun item => item.topic ≠ t)).map
          (fun r => generate_embeddings lib r.content),
        (db.metadata.filter (fun item => item.topic ≠ t)).enum.map
          (fun p => withId p.2 p.1)⟩, true) := by
  simp only [delete_by_topic, if_neg h, rebuild_foldl, List.nil_append]
  rw [enum_map_embed]

/-- Rewriting delete_by_topic on the no-match branch. -/
theorem delete_false_eq (lib : EmbedLib) (db : DB) (t : String)
    (h : (db.metadata.filter (fun item => item.topic ≠ t)).length = db.metadata.length) :
    delete_by_topic lib db t = (db, false) := by
  simp only [delete_by_topic, if_pos h]

/-- The renumbered surviving records have positional ids. -/
theorem enum_map_withId_get (l : List Record) (i : Nat)
    (hi : i < (l.enum.map (fun p => withId p.2 p.1)).length) :
    ((l.enum.map (fun p => withId p.2 p.1)).get ⟨i, hi⟩).id = i := by
  rw [List.get_eq_getElem, List.getElem_map, List.getElem_enum]
  rfl

/-- VectorDB.delete_by_topic preserves the consistency invariant. -/
theorem inv_delete (lib : EmbedLib) (db : DB) (t : String) (h : Inv db) :
    Inv (delete_by_topic lib db t).1 := by
  by_cases hk : (db.metadata.filter (fun item => item.topic ≠ t)).length
      = db.metadata.length
  · rw [delete_false_eq lib db t hk]
    exact h
  · rw [delete_true_eq lib db t hk]
    constructor
    · simp
    · intro i hi
      exact enum_map_withId_get _ i hi

/-- Reading back a saved snapshot restores the saved state. -/
theorem initDB_saveDisk (db : DB) : initDB (saveDisk db) = db := rfl

/-- Every lifecycle step preserves consistency of the live store and of
the state a reload would produce. -/
theorem sysInv_step (lib : EmbedLib) (s : Sys) (op : Op)
    (h : Inv s.db ∧ Inv (initDB s.disk)) :
    Inv (stepOp lib s op).db ∧ Inv (initDB (stepOp lib s op).disk) := by
  cases op with
  | addOp t c src dt e =>
    have hi := inv_add lib s.db t c src dt e h.1
    exact ⟨hi, by rw [show (stepOp lib s (Op.addOp t c src dt e)).disk
      = saveDisk (add lib s.db t c src dt e).1 from rfl, initDB_saveDisk]; exact hi⟩
  | deleteOp t =>
    have hi := inv_delete lib s.db t h.1
    by_cases hb : (delete_by_topic lib s.db t).2 = true
    · have hd : stepOp lib s (Op.deleteOp t) =
          ⟨(delete_by_topic lib s.db t).1, saveDisk (delete_by_topic lib s.db t).1⟩ := by
        simp only [stepOp, if_pos hb]
      rw [hd]
      exact ⟨hi, by rw [initDB_saveDisk]; exact hi⟩
    · have hd : stepOp lib s (Op.deleteOp t) =
          ⟨(delete_by_topic lib s.db t).1, s.disk⟩ := by
        simp only [stepOp, if_neg hb]
      rw [hd]
      exact ⟨hi, h.2⟩
  | reloadOp =>
    exact ⟨h.2, h.2⟩

/-- Folding any list of lifecycle steps preserves the two consistency
facts. -/
theorem sysInv_foldl (lib : EmbedLib) (ops : List Op) (s : Sys)
    (h : Inv s.db ∧ Inv (initDB s.disk)) :
    Inv ((ops.foldl (stepOp lib) s)).db ∧
    Inv (initDB ((ops.foldl (stepOp lib) s)).disk) := by
  induction ops generalizing s with
  | nil => exact h
  | cons op t ih =>
    rw [List.foldl_cons]
    exact ih _ (sysInv_step lib s op h)

/-- hashLib embeds a text as 64 copies of its hash value. -/
theorem hashLib_embed (t : String) : generate_embeddings hashLib t
    = List.replicate 64 ((t.length % 10 ^ 8 : Nat) : ℚ) := rfl

/-- hashLib embeds queryBB as 64 copies of 2. -/
theorem embed_queryBB : generate_embeddings hashLib queryBB = List.replicate 64 2 := by
  have h : queryBB.length % 10 ^ 8 = 2 := by decide
  rw [hashLib_embed, h]
  norm_num

/-- Squared L2 distance between two constant 64-dimensional vectors. -/
theorem dist2_replicate (a b : ℚ) :
    dist2 (List.replicate 64 a) (List.replicate 64 b) = 64 * (a - b) ^ 2 := by
  rw [dist2, List.zipWith_replicate, List.sum_replicate]
  norm_num

/-- Concrete knn evaluation: on db1's one-vector index, the query
embedded as 64 copies of 2 is at squared distance 64 from the stored
vector of 64 copies of 1. -/
theorem searchNN_db1 : searchNN hashLib db1 queryBB 5 = [(0, 64)] := by
  have h0 : searchNN hashLib db1 queryBB 5
      = [(0, dist2 (generate_embeddings hashLib queryBB) vOne)] := rfl
  have h2 : dist2 (generate_embeddings hashLib queryBB) vOne = 64 := by
    rw [embed_queryBB, vOne, dist2_replicate]
    norm_num
  rw [h0, h2]

/-- C1: After every committed mutating operation (add and a deleting
delete_by_topic, each of which saves the state) and after every load of
the profile's persisted state, in any session run from a fresh profile,
the consistency invariant holds: the metadata count equals the index
vector count and record[i].id = i for every i in range. -/
theorem run_preserves_consistency_invariant (lib : EmbedLib) (ops : List Op) :
    Inv (run lib ops).db := by
  have h0 : Inv sys0.db ∧ Inv (initDB sys0.disk) := ⟨inv_empty, inv_empty⟩
  exact (sysInv_foldl lib ops sys0 h0).1

/-- C2 counterexample: with both snapshot files present but mutually
inconsistent (one stored vector, zero metadata records), loading does
not treat the profile as empty: it silently adopts the inconsistent
pair, so the loaded store is itself inconsistent and non-empty. -/
theorem create_or_load_inconsistent_cex :
    (create_or_load_vector_db diskBad).metadata.length ≠
      (create_or_load_vector_db diskBad).index.length ∧
    create_or_load_vector_db diskBad ≠ DB.mk [] [] := by
  constructor
  · decide
  · intro h
    have hlen0 : (create_or_load_vector_db diskBad).index.length = 0 := by
      rw [h]
      rfl
    simp [create_or_load_vector_db, initDB, diskBad] at hlen0

/-- C2 (amended): create_or_load_vector_db loads the persisted index and
metadata whenever both snapshot files exist, performing no consistency
check — a mutually inconsistent pair is adopted as-is — and initializes
an empty store only when at least one snapshot file is missing; loading
a state saved by the store restores exactly that state. -/
theorem create_or_load_amended (i : List Vec) (m : List Record) (d : Disk) (db : DB) :
    create_or_load_vector_db ⟨some i, some m⟩ = ⟨i, m⟩ ∧
    (d.indexFile = none ∨ d.metaFile = none → create_or_load_vector_db d = ⟨[], []⟩) ∧
    create_or_load_vector_db (saveDisk db) = db := by
  refine ⟨rfl, ?_, initDB_saveDisk db⟩
  intro h
  obtain ⟨fi, fm⟩ := d
  cases fi with
  | none => rfl
  | some iv =>
    cases fm with
    | none => rfl
    | some mv => simp at h

/-- C3: When at least one stored record has the given topic,
delete_by_topic returns true, keeps exactly the records whose topic
differs from the argument in their original order with ids renumbered
consecutively from 0, and rebuilds the index by re-embedding every
surviving record's content, so the index count equals the number of
survivors. -/
theorem delete_by_topic_rebuild_spec (lib : EmbedLib) (db : DB) (t : String)
    (h : ∃ r ∈ db.metadata, r.topic = t) :
    (delete_by_topic lib db t).2 = true ∧
    (delete_by_topic lib db t).1.metadata =
      (db.metadata.filter (fun item => item.topic ≠ t)).enum.map
        (fun p => withId p.2 p.1) ∧
    (∀ i (hi : i < (delete_by_topic lib db t).1.metadata.length),
      ((delete_by_topic lib db t).1.metadata.get ⟨i, hi⟩).id = i) ∧
    (delete_by_topic lib db t).1.index =
      (db.metadata.filter (fun item => item.topic ≠ t)).map
        (fun r => generate_embeddings lib r.content) ∧
    (delete_by_topic lib db t).1.index.length =
      (db.metadata.filter (fun item => item.topic ≠ t)).length := by
  have hk : (db.metadata.filter (fun item => item.topic ≠ t)).length
      ≠ db.metadata.length := by
    obtain ⟨r, hr, ht⟩ := h
    have hlt : (db.metadata.filter (fun item => item.topic ≠ t)).length
        < db.metadata.length :=
      List.length_filter_lt_length_iff_exists.mpr ⟨r, hr, by simp [ht]⟩
    omega
  rw [delete_true_eq lib db t hk]
  refine ⟨rfl, rfl, ?_, rfl, by simp⟩
  intro i hi
  exact enum_map_withId_get _ i hi

/-- C3 witness: on the store with topics A, A, B, deleting topic A
returns true, leaves exactly the B record renumbered to id 0, and the
rebuilt index holds exactly one vector. -/
theorem delete_by_topic_rebuild_spec_witness :
    ((delete_by_topic hashLib dbAAB topicA).2 = true ∧
      (delete_by_topic hashLib dbAAB topicA).1.metadata =
        (dbAAB.metadata.filter (fun item => item.topic ≠ topicA)).enum.map
          (fun p => withId p.2 p.1) ∧
      (∀ i (hi : i < (delete_by_topic hashLib dbAAB topicA).1.metadata.length),
        ((delete_by_topic hashLib dbAAB topicA).1.metadata.get ⟨i, hi⟩).id = i) ∧
      (delete_by_topic hashLib dbAAB topicA).1.index =
        (dbAAB.metadata.filter (fun item => item.topic ≠ topicA)).map
          (fun r => generate_embeddings hashLib r.content) ∧
      (delete_by_topic hashLib dbAAB topicA).1.index.length =
        (dbAAB.metadata.filter (fun item => item.topic ≠ topicA)).length) ∧
    (delete_by_topic hashLib dbAAB topicA).1.metadata = [withId recB 0] ∧
    (delete_by_topic hashLib dbAAB topicA).1.index.length = 1 :=
  ⟨delete_by_topic_rebuild_spec hashLib dbAAB topicA ⟨recA1, by decide, by decide⟩,
    by decide, by decide⟩

/-- C4: delete_by_topic returns false exactly when no stored record's
topic equals the argument, and in that case it returns the state
completely unchanged. -/
theorem delete_by_topic_no_match_spec (lib : EmbedLib) (db : DB) (t : String) :
    ((delete_by_topic lib db t).2 = false ↔ ∀ r ∈ db.metadata, r.topic ≠ t) ∧
    ((delete_by_topic lib db t).2 = false →
      delete_by_topic lib db t = (db, false)) := by
  by_cases hk : (db.metadata.filter (fun item => item.topic ≠ t)).length
      = db.metadata.length
  · rw [delete_false_eq lib db t hk]
    have hall : ∀ r ∈ db.metadata, r.topic ≠ t := by
      have hf := List.filter_length_eq_length.mp hk
      intro r hr
      simpa using hf r hr
    exact ⟨⟨fun _ => hall, fun _ => rfl⟩, fun _ => rfl⟩
  · rw [delete_true_eq lib db t hk]
    constructor
    · constructor
      · intro hfalse
        simp at hfalse
      · intro hall
        exfalso
        apply hk
        rw [List.filter_length_eq_length]
        intro r hr
        simpa using hall r hr
    · intro hfalse
      simp at hfalse

/-- C5: On a consistent store, search returns exactly the knn pairs
mapped to records scored by 1 - distance / max-distance-of-the-result-set
(the maximum over that query's returned results, not a global maximum);
when that maximum is 0 every returned entry is scored 0; and every
returned score lies in [0, 1]. -/
theorem search_score_formula_spec (lib : EmbedLib) (db : DB) (q : String)
    (top_k : Nat) (hInv : Inv db) :
    search lib db q top_k = (searchNN lib db q top_k).map (fun p =>
      (⟨db.metadata.getD p.1 defaultRecord,
        if 0 < searchMaxDist lib db q top_k
        then 1 - p.2 / searchMaxDist lib db q top_k else 0⟩ : SearchResult)) ∧
    (searchMaxDist lib db q top_k = 0 →
      ∀ r ∈ search lib db q top_k, r.score = 0) ∧
    ∀ r ∈ search lib db q top_k, 0 ≤ r.score ∧ r.score ≤ 1 := by
  refine ⟨search_eq_map lib db q top_k hInv, ?_,
    search_score_bounds lib db q top_k hInv⟩
  intro hmd r hr
  rw [search_eq_map lib db q top_k hInv] at hr
  obtain ⟨p, hp, hpe⟩ := List.mem_map.mp hr
  subst hpe
  dsimp only
  rw [if_neg (by rw [hmd]; exact lt_irrefl 0)]

/-- C5 witness: the score formula evaluated on the one-record store db1. -/
theorem search_score_formula_spec_witness :
    search hashLib db1 queryBB 5 = (searchNN hashLib db1 queryBB 5).map (fun p =>
      (⟨db1.metadata.getD p.1 defaultRecord,
        if 0 < searchMaxDist hashLib db1 queryBB 5
        then 1 - p.2 / searchMaxDist hashLib db1 queryBB 5 else 0⟩ : SearchResult)) ∧
    (searchMaxDist hashLib db1 queryBB 5 = 0 →
      ∀ r ∈ search hashLib db1 queryBB 5, r.score = 0) ∧
    ∀ r ∈ search hashLib db1 queryBB 5, 0 ≤ r.score ∧ r.score ≤ 1 :=
  search_score_formula_spec hashLib db1 queryBB 5 (by decide)

/-- C6: knn returns up to k (position, distance) pairs — exactly
min k (stored count) — ordered by ascending squared L2 distance,
equivalently by ascending Euclidean distance (the square root of the
returned distance), and on a consistent store search returns its
results with non-increasing score. -/
theorem search_ordered_spec (lib : EmbedLib) (db : DB) (q : String) (top_k : Nat)
    (index : List Vec) (qv : Vec) (k : Nat) (hInv : Inv db) :
    (knn index qv k).length = min k index.length ∧
    (knn index qv k).Pairwise (fun a b => a.2 ≤ b.2) ∧
    (knn index qv k).Pairwise
      (fun a b => Real.sqrt (a.2 : ℝ) ≤ Real.sqrt (b.2 : ℝ)) ∧
    (search lib db q top_k).Pairwise (fun r s => s.score ≤ r.score) := by
  refine ⟨knn_length index qv k, knn_sorted index qv k, ?_,
    search_scores_sorted lib db q top_k hInv⟩
  refine (knn_sorted index qv k).imp ?_
  intro a b hab
  exact Real.sqrt_le_sqrt (by exact_mod_cast hab)

/-- C6 witness: the ordering facts evaluated on db1's index and query. -/
theorem search_ordered_spec_witness :
    (knn db1.index vOne 1).length = min 1 db1.index.length ∧
    (knn db1.index vOne 1).Pairwise (fun a b => a.2 ≤ b.2) ∧
    (knn db1.index vOne 1).Pairwise
      (fun a b => Real.sqrt (a.2 : ℝ) ≤ Real.sqrt (b.2 : ℝ)) ∧
    (search hashLib db1 queryBB 5).Pairwise (fun r s => s.score ≤ r.score) :=
  search_ordered_spec hashLib db1 queryBB 5 db1.index vOne 1 (by decide)

/-- C7: search on a store with no records returns the empty list and
get_all_topics on such a store returns the empty collection; on a
consistent store search returns exactly min(top_k, record count)
results. -/
theorem search_empty_and_clamp_spec (lib : EmbedLib) (db : DB) (q : String)
    (top_k : Nat) :
    (db.metadata = [] → search lib db q top_k = [] ∧ get_all_topics db = []) ∧
    (Inv db → (search lib db q top_k).length = min top_k db.metadata.length) := by
  constructor
  · intro h
    constructor
    · simp [search, h]
    · simp [get_all_topics, h]
  · intro hInv
    rw [search_eq_map lib db q top_k hInv, List.length_map, searchNN, knn_length]
    have h1 := hInv.1
    omega

/-- C8: generate_embeddings is a deterministic pure function of the
text — identical texts yield identical vectors — and the returned
vector always has dimension 64. -/
theorem generate_embeddings_deterministic_dim (lib : EmbedLib) (t1 t2 : String)
    (h : t1 = t2) :
    generate_embeddings lib t1 = generate_embeddings lib t2 ∧
    (generate_embeddings lib t1).length = 64 := by
  subst h
  exact ⟨rfl, lib.randn_length _ _⟩

/-- C8 witness: evaluated on hashLib and the concrete text contentA. -/
theorem generate_embeddings_deterministic_dim_witness :
    generate_embeddings hashLib contentA = generate_embeddings hashLib contentA ∧
    (generate_embeddings hashLib contentA).length = 64 :=
  generate_embeddings_deterministic_dim hashLib contentA contentA rfl

/-- C9: On a consistent store, whenever some returned knn entry has
positive distance, the entry whose distance attains the result set's
maximum is scored 1 - max/max = 0, so the result list contains a record
with score exactly 0 — including when a single result is returned at
positive distance. -/
theorem search_max_distance_scores_zero (lib : EmbedLib) (db : DB) (q : String)
    (top_k : Nat) (hInv : Inv db)
    (hpos : ∃ p ∈ searchNN lib db q top_k, 0 < p.2) :
    ∃ r ∈ search lib db q top_k, r.score = 0 := by
  obtain ⟨p0, hp0, hp0pos⟩ := hpos
  have hne : (searchNN lib db q top_k).map (fun p => p.2) ≠ [] := by
    intro hcontra
    have hmem : p0.2 ∈ (searchNN lib db q top_k).map (fun p => p.2) :=
      List.mem_map_of_mem _ hp0
    rw [hcontra] at hmem
    cases hmem
  obtain ⟨pm, hpm, hpme⟩ := List.mem_map.mp (maxDist_mem hne)
  have hmdpos : 0 < searchMaxDist lib db q top_k := by
    rw [searchMaxDist]
    calc (0 : ℚ) < p0.2 := hp0pos
      _ ≤ _ := le_maxDist (List.mem_map_of_mem _ hp0)
  refine ⟨⟨db.metadata.getD pm.1 defaultRecord,
    if 0 < searchMaxDist lib db q top_k
    then 1 - pm.2 / searchMaxDist lib db q top_k else 0⟩, ?_, ?_⟩
  · rw [search_eq_map lib db q top_k hInv]
    exact List.mem_map_of_mem _ hpm
  · dsimp only
    rw [if_pos hmdpos]
    have hpm2 : pm.2 = searchMaxDist lib db q top_k := by
      rw [searchMaxDist]
      exact hpme
    rw [hpm2, div_self (ne_of_gt hmdpos), sub_self]

/-- C9 witness: db1's single stored vector is at positive distance from
the query, so the single returned result is scored exactly 0. -/
theorem search_max_distance_scores_zero_witness :
    ∃ r ∈ search hashLib db1 queryBB 5, r.score = 0 :=
  search_max_distance_scores_zero hashLib db1 queryBB 5 (by decide)
    ⟨(0, 64), by rw [searchNN_db1]; exact List.mem_singleton_self _, by norm_num⟩

/-- C10: search, get_by_topic and get_all_topics are read-only: their
method-state transition leaves the index and metadata unchanged, and on
a consistent store search attaches the score to a record equal to a
stored one — the stored metadata itself is not mutated. -/
theorem read_ops_frame_spec (lib : EmbedLib) (db : DB) (q t : String)
    (top_k : Nat) :
    (searchM lib db q top_k).1 = db ∧
    (get_by_topicM db t).1 = db ∧
    (get_all_topicsM db).1 = db ∧
    (Inv db → ∀ r ∈ (searchM lib db q top_k).2, r.record ∈ db.metadata) := by
  refine ⟨rfl, rfl, rfl, ?_⟩
  intro hInv r hr
  have hr2 : r ∈ search lib db q top_k := hr
  rw [search_eq_map lib db q top_k hInv] at hr2
  obtain ⟨p, hp, hpe⟩ := List.mem_map.mp hr2
  subst hpe
  dsimp only
  obtain ⟨hlt, -⟩ := mem_knn hp
  have hm : p.1 < db.metadata.length := by
    have h1 := hInv.1
    omega
  rw [List.getD_eq_getElem _ _ hm]
  exact List.getElem_mem hm

end BrainVault
